import Mathlib

/-!
Verification of the NGL abstract-mesh layer (src/include/ngl/AbstractMesh.h).

The repository ships only the header: the class Face, the class IndexRef and
the inline members of AbstractMesh (the default constructor, getBBox,
getVertexAtIndex and the accessors) are real code and are embedded directly.
The out-of-line members (createVAO, scale, calcDimensions, isTriangular,
saveNCCABinaryMesh) are declared in the header but their implementation file
is not part of src/, so they are modelled from the specification, as marked
on each definition.

Scalars (ngl Real) are modelled as rationals; machine floats are out of
scope for the embedding, and the specification treats NaN propagation as a
non-goal.
-/

namespace NGL

/-- The ngl Real scalar type, modelled as the rationals. -/
abbrev Real := ℚ

/-- A 3-component vector (ngl Vec3); texture coordinates use only x and y. -/
structure Vec3 where
  x : Real
  y : Real
  z : Real
deriving DecidableEq, Repr

instance : Inhabited Vec3 := ⟨⟨0, 0, 0⟩⟩

/-- A single face of an abstract mesh (class Face, AbstractMesh.h lines 46-70):
three per-corner index lists into the vertex, texture-coordinate and normal
streams, plus the two attribute-presence booleans. -/
structure Face where
  m_vert : List Nat
  m_tex : List Nat
  m_norm : List Nat
  m_textureCoord : Bool
  m_normals : Bool
deriving DecidableEq, Repr

/-- The attribute triple keyed on for consolidation (class IndexRef,
AbstractMesh.h lines 76-99). Modelled from the spec: the normal and
texture components carry a sentinel for an absent attribute, represented
as an optional index so that an absent attribute never collides with
index 0. -/
structure IndexRef where
  m_v : Nat
  m_n : Option Nat
  m_t : Option Nat
deriving DecidableEq, Repr

instance : Inhabited IndexRef := ⟨⟨0, none, none⟩⟩

/-- The geometry stream store of an AbstractMesh: the three raw attribute
streams (m_verts, m_norm, m_tex) and the face list (m_face),
AbstractMesh.h lines 285-297. -/
structure AbstractMesh where
  m_verts : List Vec3
  m_norm : List Vec3
  m_tex : List Vec3
  m_face : List Face
deriving DecidableEq, Repr

/-- The error taxonomy of the specification (section 7). -/
inductive MeshError where
  | emptyMesh
  | unsupportedTopology
  | consistency
  | corruptCache
  | formatVersion
deriving DecidableEq, Repr

/-- Modelled from the spec: AbstractMesh::isTriangular is declared at
AbstractMesh.h line 263 but its implementation file is not in src/;
a mesh is triangular when every face has three corners. -/
def isTriangular (faces : List Face) : Bool :=
  faces.all fun f => f.m_vert.length == 3

/-- Modelled from the spec: the quad counterpart of isTriangular. -/
def isQuad (faces : List Face) : Bool :=
  faces.all fun f => f.m_vert.length == 4

/-- Modelled from the spec: all faces in a mesh must share the same arity,
pure triangle or pure quad; anything else is the unsupported-topology
condition. -/
def uniformArity (faces : List Face) : Bool :=
  isTriangular faces || isQuad faces

/-- Modelled from the spec: the mesh-wide has-normals flag, taken from the
first face. -/
def meshNormalsFlag (faces : List Face) : Bool :=
  match faces with
  | [] => false
  | f :: _ => f.m_normals

/-- Modelled from the spec: the mesh-wide has-texcoords flag, taken from the
first face. -/
def meshTexFlag (faces : List Face) : Bool :=
  match faces with
  | [] => false
  | f :: _ => f.m_textureCoord

/-- Modelled from the spec: every face must agree with the mesh-wide
attribute-presence flags; a disagreement is the consistency condition. -/
def uniformFlags (faces : List Face) : Bool :=
  faces.all fun f =>
    f.m_normals == meshNormalsFlag faces && f.m_textureCoord == meshTexFlag faces

/-- Modelled from the spec: the attribute triples of the corners of one face,
in per-face corner order; the normal and texture components are present
exactly when the corresponding face flag is set and the index list covers
the corner. -/
def faceTriples (f : Face) : List IndexRef :=
  (List.range f.m_vert.length).map fun i =>
    { m_v := f.m_vert.getD i 0
    , m_n := if f.m_normals then f.m_norm.get? i else none
    , m_t := if f.m_textureCoord then f.m_tex.get? i else none }

/-- Modelled from the spec: all corner triples of the mesh, faces in their
original order, corners in original per-face order. -/
def cornerTriples (m : AbstractMesh) : List IndexRef :=
  m.m_face.flatMap faceTriples

/-- Modelled from the spec: intern one triple into the slot list; a triple
already present is left where first seen, a new one is appended at the end. -/
def internTriple (acc : List IndexRef) (t : IndexRef) : List IndexRef :=
  if t ∈ acc then acc else acc ++ [t]

/-- Modelled from the spec: the slot list of a corner sequence, one slot per
distinct attribute triple, in first-seen order. -/
def slotList (ts : List IndexRef) : List IndexRef :=
  ts.foldl internTriple []

/-- Modelled from the spec: the interleaved record emitted for one slot,
assembled from the three raw streams at the indices of the triple, in the
order position, then normal and texcoord when the mesh-wide flags demand
them. -/
def vertRecord (m : AbstractMesh) (hasN hasT : Bool) (r : IndexRef) : List Real :=
  let p := m.m_verts.getD r.m_v default
  [p.x, p.y, p.z]
    ++ (if hasN then
          let n := m.m_norm.getD (r.m_n.getD 0) default
          [n.x, n.y, n.z]
        else [])
    ++ (if hasT then
          let t := m.m_tex.getD (r.m_t.getD 0) default
          [t.x, t.y]
        else [])

/-- The output of consolidation: the consolidated vertex buffer as a list of
interleaved records (the data behind the VBO) and the duplicate-free index
buffer m_outIndices (AbstractMesh.h lines 303-313). -/
structure ConsolidatedBuffers where
  vboBuffer : List (List Real)
  outIndices : List Nat
deriving DecidableEq, Repr

/-- Modelled from the spec: the index consolidator run by
AbstractMesh::createVAO (declared AbstractMesh.h line 167, implementation
not in src/). Topology uniformity is checked first, then flag consistency;
only then are the buffers produced: every corner is mapped to the slot of
its triple in first-seen order, and the record for each slot is emitted
once. An error aborts before any buffer is published. -/
def consolidate (m : AbstractMesh) : Except MeshError ConsolidatedBuffers :=
  if uniformArity m.m_face then
    if uniformFlags m.m_face then
      let corners := cornerTriples m
      let slots := slotList corners
      .ok { vboBuffer := slots.map (vertRecord m (meshNormalsFlag m.m_face) (meshTexFlag m.m_face))
          , outIndices := corners.map fun t => slots.indexOf t }
    else .error .consistency
  else .error .unsupportedTopology

/-- Modelled from the spec: AbstractMesh::scale (declared AbstractMesh.h
line 147, implementation not in src/) multiplies every position
component-wise by the three scale factors. -/
def scale (sx sy sz : Real) (verts : List Vec3) : List Vec3 :=
  verts.map fun p => ⟨sx * p.x, sy * p.y, sz * p.z⟩

/-- The six extent scalars of the bounding box (members m_minX .. m_maxZ,
AbstractMesh.h lines 346-366). -/
structure BBoxData where
  m_minX : Real
  m_maxX : Real
  m_minY : Real
  m_maxY : Real
  m_minZ : Real
  m_maxZ : Real
deriving DecidableEq, Repr

/-- Modelled from the spec: AbstractMesh::calcDimensions (declared
AbstractMesh.h line 151, implementation not in src/) scans all positions
and returns the six-scalar box; it fails exactly on an empty position
stream with the empty-mesh error, never returning a zero-filled box. -/
def calcDimensions (verts : List Vec3) : Except MeshError BBoxData :=
  match verts with
  | [] => .error .emptyMesh
  | p :: rest =>
    .ok { m_minX := rest.foldl (fun a q => min a q.x) p.x
        , m_maxX := rest.foldl (fun a q => max a q.x) p.x
        , m_minY := rest.foldl (fun a q => min a q.y) p.y
        , m_maxY := rest.foldl (fun a q => max a q.y) p.y
        , m_minZ := rest.foldl (fun a q => min a q.z) p.z
        , m_maxZ := rest.foldl (fun a q => max a q.z) p.z }

/-- The transformation the specification claims for the box under scaling:
each resulting coordinate multiplied by the scale factor of its axis. This
definition follows the words of the spec sentence and is compared against
the computed box. -/
def scaleBBoxSpec (sx sy sz : Real) (b : BBoxData) : BBoxData :=
  { m_minX := sx * b.m_minX
  , m_maxX := sx * b.m_maxX
  , m_minY := sy * b.m_minY
  , m_maxY := sy * b.m_maxY
  , m_minZ := sz * b.m_minZ
  , m_maxZ := sz * b.m_maxZ }

/-- One token of the binary cache stream: a machine word or a packed real. -/
inductive CacheToken where
  | word : Nat → CacheToken
  | real : Real → CacheToken
deriving DecidableEq, Repr

/-- Modelled from the spec: the version tag of the NCCA binary mesh format. -/
def nccaBinaryVersion : Nat := 1

/-- Modelled from the spec: the recognized pack-layout tags, the record
sizes 3 (position), 5 (position+texcoord), 6 (position+normal) and
8 (position+normal+texcoord), the values held by m_bufferPackSize. -/
def packSizes : List Nat := [3, 5, 6, 8]

/-- Modelled from the spec: AbstractMesh::saveNCCABinaryMesh (declared
AbstractMesh.h line 193, implementation not in src/) writes the version
tag, vertex count, index count and pack-layout tag, followed by the raw
vertex buffer and index buffer in that order. -/
def serialize (packTag nVerts nIndices : Nat) (vb : List Real) (ib : List Nat) :
    List CacheToken :=
  CacheToken.word nccaBinaryVersion :: CacheToken.word nVerts ::
    CacheToken.word nIndices :: CacheToken.word packTag ::
    (vb.map CacheToken.real ++ ib.map CacheToken.word)

/-- Read a run of packed reals from the cache stream; a word token in the
run means the stream is corrupt. -/
def readReals : List CacheToken → Option (List Real)
  | [] => some []
  | .real q :: rest => (readReals rest).map fun l => q :: l
  | .word _ :: _ => none

/-- Read a run of index words from the cache stream; a real token in the
run means the stream is corrupt. -/
def readNats : List CacheToken → Option (List Nat)
  | [] => some []
  | .word n :: rest => (readNats rest).map fun l => n :: l
  | .real _ :: _ => none

/-- Modelled from the spec: the reader of the NCCA binary mesh format. It
fails with the format-version error on an unrecognized version or
pack-layout tag, and with the corrupt-cache error when the declared counts
are inconsistent with the bytes available; otherwise it reconstructs the
vertex count, index count, pack tag and the two buffers. -/
def deserialize (stream : List CacheToken) :
    Except MeshError (Nat × Nat × Nat × List Real × List Nat) :=
  match stream with
  | .word v :: .word nV :: .word nI :: .word tag :: rest =>
    if v ≠ nccaBinaryVersion then .error .formatVersion
    else if ¬ (tag ∈ packSizes) then .error .formatVersion
    else if rest.length ≠ nV * tag + nI then .error .corruptCache
    else
      match readReals (rest.take (nV * tag)), readNats (rest.drop (nV * tag)) with
      | some vb, some ib => .ok (nV, nI, tag, vb, ib)
      | _, _ => .error .corruptCache
  | _ => .error .corruptCache

/-- AbstractMesh::getVertexAtIndex (AbstractMesh.h lines 209-213): the body
is literally the unchecked access, the bounds assertion being commented
out. The unchecked subscript is embedded as a list lookup whose value none
marks an out-of-bounds access that the source leaves undefined. -/
def getVertexAtIndex (m_verts : List Vec3) (i : Nat) : Option Vec3 :=
  m_verts.get? i

/-- The state established by the AbstractMesh default constructor
(AbstractMesh.h line 122): only m_vbo, m_vao and m_ext receive values; the
bounding-box pointer m_ext is modelled as an optional box, none standing
for the null pointer. -/
structure AbstractMeshCtorState where
  m_vbo : Bool
  m_vao : Bool
  m_ext : Option BBoxData
deriving DecidableEq, Repr

/-- The AbstractMesh default constructor (AbstractMesh.h line 122):
m_vbo(false), m_vao(false), m_ext(nullptr). -/
def mkAbstractMesh : AbstractMeshCtorState :=
  { m_vbo := false, m_vao := false, m_ext := none }

/-- AbstractMesh::getBBox (AbstractMesh.h line 199) returns the dereferenced
m_ext unconditionally; the dereference of the modelled pointer yields
none exactly when the pointer is null. -/
def getBBox (s : AbstractMeshCtorState) : Option BBoxData :=
  s.m_ext

instance {ε α : Type _} [DecidableEq ε] [DecidableEq α] : DecidableEq (Except ε α) :=
  fun a b =>
    match a, b with
    | .ok x, .ok y =>
        if h : x = y then isTrue (congrArg Except.ok h)
        else isFalse fun hc => h (Except.ok.inj hc)
    | .ok _, .error _ => isFalse fun hc => Except.noConfusion hc
    | .error _, .ok _ => isFalse fun hc => Except.noConfusion hc
    | .error e, .error d =>
        if h : e = d then isTrue (congrArg Except.error h)
        else isFalse fun hc => h (Except.error.inj hc)

/-! Helper lemmas about the interning fold behind slotList. -/

theorem mem_foldl_internTriple {a : IndexRef} (ts : List IndexRef) (acc : List IndexRef)
    (h : a ∈ acc ∨ a ∈ ts) : a ∈ ts.foldl internTriple acc := by
  induction ts generalizing acc with
  | nil => simpa using h
  | cons t rest ih =>
    simp only [List.foldl_cons]
    apply ih
    rcases h with h | h
    · left
      unfold internTriple
      split
      · exact h
      · exact List.mem_append_left _ h
    · rcases List.mem_cons.mp h with rfl | h
      · left
        unfold internTriple
        split
        · assumption
        · exact List.mem_append_right _ (List.mem_singleton.mpr rfl)
      · right; exact h

theorem mem_of_mem_foldl_internTriple {a : IndexRef} (ts : List IndexRef)
    (acc : List IndexRef) (h : a ∈ ts.foldl internTriple acc) : a ∈ acc ∨ a ∈ ts := by
  induction ts generalizing acc with
  | nil => exact Or.inl (by simpa using h)
  | cons t rest ih =>
    simp only [List.foldl_cons] at h
    rcases ih _ h with h | h
    · unfold internTriple at h
      split at h
      · exact Or.inl h
      · rcases List.mem_append.mp h with h | h
        · exact Or.inl h
        · exact Or.inr (List.mem_cons.mpr (Or.inl (List.mem_singleton.mp h)))
    · exact Or.inr (List.mem_cons_of_mem _ h)

theorem nodup_foldl_internTriple (ts : List IndexRef) (acc : List IndexRef)
    (h : acc.Nodup) : (ts.foldl internTriple acc).Nodup := by
  induction ts generalizing acc with
  | nil => exact h
  | cons t rest ih =>
    simp only [List.foldl_cons]
    apply ih
    by_cases hmem : t ∈ acc
    · simpa [internTriple, hmem] using h
    · simp [internTriple, hmem, List.nodup_append, h]

theorem length_foldl_internTriple_le (ts : List IndexRef) (acc : List IndexRef) :
    (ts.foldl internTriple acc).length ≤ acc.length + ts.length := by
  induction ts generalizing acc with
  | nil => simp
  | cons t rest ih =>
    simp only [List.foldl_cons, List.length_cons]
    calc (rest.foldl internTriple (internTriple acc t)).length
        ≤ (internTriple acc t).length + rest.length := ih _
      _ ≤ acc.length + 1 + rest.length := by
          unfold internTriple
          split <;> simp
      _ = acc.length + (rest.length + 1) := by omega

theorem mem_slotList {a : IndexRef} {ts : List IndexRef} (h : a ∈ ts) : a ∈ slotList ts :=
  mem_foldl_internTriple ts [] (Or.inr h)

theorem mem_of_mem_slotList {a : IndexRef} {ts : List IndexRef} (h : a ∈ slotList ts) :
    a ∈ ts := by
  rcases mem_of_mem_foldl_internTriple ts [] h with h | h
  · simp at h
  · exact h

theorem nodup_slotList (ts : List IndexRef) : (slotList ts).Nodup :=
  nodup_foldl_internTriple ts [] List.nodup_nil

theorem length_slotList_le (ts : List IndexRef) : (slotList ts).length ≤ ts.length := by
  simpa using length_foldl_internTriple_le ts []

theorem toFinset_slotList (ts : List IndexRef) : (slotList ts).toFinset = ts.toFinset := by
  ext a
  simp only [List.mem_toFinset]
  exact ⟨mem_of_mem_slotList, mem_slotList⟩

theorem length_slotList_eq_card (ts : List IndexRef) :
    (slotList ts).length = ts.toFinset.card := by
  rw [← toFinset_slotList, List.toFinset_card_of_nodup (nodup_slotList ts)]

theorem indexOf_eq_iff_of_mem {l : List IndexRef} {a b : IndexRef}
    (ha : a ∈ l) (hb : b ∈ l) : l.indexOf a = l.indexOf b ↔ a = b := by
  constructor
  · intro h
    have h1 := List.indexOf_get (List.indexOf_lt_length.mpr ha)
    have h2 := List.indexOf_get (List.indexOf_lt_length.mpr hb)
    rw [← h1, ← h2]
    simp [h]
  · intro h; rw [h]

/-- Unfolding of a successful consolidation into its two buffers. -/
theorem consolidate_ok_eq {m : AbstractMesh} {out : ConsolidatedBuffers}
    (hok : consolidate m = .ok out) :
    out.vboBuffer = (slotList (cornerTriples m)).map
        (vertRecord m (meshNormalsFlag m.m_face) (meshTexFlag m.m_face)) ∧
    out.outIndices = (cornerTriples m).map
        fun t => (slotList (cornerTriples m)).indexOf t := by
  unfold consolidate at hok
  split at hok
  · split at hok
    · have := Except.ok.inj hok
      rw [← this]
      exact ⟨rfl, rfl⟩
    · exact absurd hok (by simp)
  · exact absurd hok (by simp)

theorem sum_map_const_nat {α : Type _} (l : List α) (A : Nat) :
    (l.map fun _ => A).sum = l.length * A := by
  induction l with
  | nil => simp
  | cons a t ih => simp [ih, Nat.succ_mul, Nat.add_comm]

/-- A demonstration mesh: two quad faces sharing an edge, no normals or
texture coordinates, as in the worked example of the specification. -/
def demoMesh : AbstractMesh :=
  { m_verts := [⟨0, 0, 0⟩, ⟨1, 0, 0⟩, ⟨2, 0, 0⟩, ⟨3, 0, 0⟩, ⟨4, 0, 0⟩, ⟨5, 0, 0⟩]
  , m_norm := []
  , m_tex := []
  , m_face :=
      [ { m_vert := [0, 1, 2, 3], m_tex := [], m_norm := []
        , m_textureCoord := false, m_normals := false }
      , { m_vert := [1, 4, 5, 2], m_tex := [], m_norm := []
        , m_textureCoord := false, m_normals := false } ] }

/-- The buffers the consolidator produces for demoMesh: six slots and an
index buffer of length eight. -/
def demoBuffers : ConsolidatedBuffers :=
  { vboBuffer := [[0, 0, 0], [1, 0, 0], [2, 0, 0], [3, 0, 0], [4, 0, 0], [5, 0, 0]]
  , outIndices := [0, 1, 2, 3, 1, 4, 5, 2] }

/-- C1: the index consolidator assigns two face corners the same slot index
if and only if their attribute triples are equal, so the consolidated
vertex buffer holds no duplicate record for identical attribute
combinations. -/
theorem consolidate_dedup_correct (m : AbstractMesh) (out : ConsolidatedBuffers)
    (hok : consolidate m = .ok out) (i j : Nat)
    (hi : i < (cornerTriples m).length) (hj : j < (cornerTriples m).length) :
    (out.outIndices.getD i 0 = out.outIndices.getD j 0 ↔
      (cornerTriples m).getD i default = (cornerTriples m).getD j default) := by
  obtain ⟨-, hib⟩ := consolidate_ok_eq hok
  have hti : (cornerTriples m).get? i = some ((cornerTriples m).get ⟨i, hi⟩) :=
    List.get?_eq_get hi
  have htj : (cornerTriples m).get? j = some ((cornerTriples m).get ⟨j, hj⟩) :=
    List.get?_eq_get hj
  simp only [hib, List.getD_eq_getD_get?, List.get?_map, hti, htj,
    Option.map_some', Option.getD_some]
  exact indexOf_eq_iff_of_mem (mem_slotList (List.get_mem _ _ _))
    (mem_slotList (List.get_mem _ _ _))

/-- C1 witness: instantiation on demoMesh at corners 1 and 4, the two
corners referencing position 1 with identical triples. -/
theorem consolidate_dedup_correct_witness :
    consolidate demoMesh = .ok demoBuffers ∧
    1 < (cornerTriples demoMesh).length ∧ 4 < (cornerTriples demoMesh).length ∧
    (demoBuffers.outIndices.getD 1 0 = demoBuffers.outIndices.getD 4 0 ↔
      (cornerTriples demoMesh).getD 1 default = (cornerTriples demoMesh).getD 4 default) :=
  ⟨by decide, by decide, by decide,
    consolidate_dedup_correct demoMesh demoBuffers (by decide) 1 4 (by decide) (by decide)⟩

/-- C2: on a successful consolidation the index buffer has one entry per
face corner, faces times the uniform arity, and every entry names a valid
slot of the consolidated vertex buffer. -/
theorem consolidate_indexBuffer_size (m : AbstractMesh) (out : ConsolidatedBuffers)
    (A : Nat) (hok : consolidate m = .ok out)
    (hA : ∀ f ∈ m.m_face, f.m_vert.length = A) :
    out.outIndices.length = m.m_face.length * A ∧
      ∀ k ∈ out.outIndices, k < out.vboBuffer.length := by
  obtain ⟨hvb, hib⟩ := consolidate_ok_eq hok
  constructor
  · rw [hib, List.length_map]
    unfold cornerTriples
    rw [List.length_flatMap]
    have hmap : m.m_face.map (List.length ∘ faceTriples)
        = m.m_face.map (fun _ => A) := by
      apply List.map_congr_left
      intro f hf
      simp [Function.comp, faceTriples, hA f hf]
    rw [hmap, sum_map_const_nat]
  · intro k hk
    rw [hib] at hk
    rcases List.mem_map.mp hk with ⟨t, ht, rfl⟩
    rw [hvb, List.length_map]
    exact List.indexOf_lt_length.mpr (mem_slotList ht)

/-- C2 witness: demoMesh has two quad faces, so the index buffer has
2 times 4 entries, all below the six slots. -/
theorem consolidate_indexBuffer_size_witness :
    consolidate demoMesh = .ok demoBuffers ∧
    (∀ f ∈ demoMesh.m_face, f.m_vert.length = 4) ∧
    (demoBuffers.outIndices.length = demoMesh.m_face.length * 4 ∧
      ∀ k ∈ demoBuffers.outIndices, k < demoBuffers.vboBuffer.length) :=
  ⟨by decide, by decide,
    consolidate_indexBuffer_size demoMesh demoBuffers 4 (by decide) (by decide)⟩

/-- C8: on a successful consolidation the vertex buffer has exactly one
record per distinct attribute triple over all face corners, and hence
never more records than corners. -/
theorem consolidate_vertexBuffer_size (m : AbstractMesh) (out : ConsolidatedBuffers)
    (hok : consolidate m = .ok out) :
    out.vboBuffer.length = (cornerTriples m).toFinset.card ∧
      out.vboBuffer.length ≤ (cornerTriples m).length := by
  obtain ⟨hvb, -⟩ := consolidate_ok_eq hok
  rw [hvb, List.length_map]
  exact ⟨length_slotList_eq_card _, length_slotList_le _⟩

/-- C8 witness: demoMesh has eight corners but only six distinct triples,
and the vertex buffer has exactly six records. -/
theorem consolidate_vertexBuffer_size_witness :
    consolidate demoMesh = .ok demoBuffers ∧
    (demoBuffers.vboBuffer.length = (cornerTriples demoMesh).toFinset.card ∧
      demoBuffers.vboBuffer.length ≤ (cornerTriples demoMesh).length) :=
  ⟨by decide, consolidate_vertexBuffer_size demoMesh demoBuffers (by decide)⟩

/-- C3: consolidation is a pure function of the face list and attribute
streams, so two runs on the same unchanged input produce identical
consolidated vertex and index buffers, with the same first-seen slot
order both times. -/
theorem consolidate_deterministic (m : AbstractMesh) (out1 out2 : ConsolidatedBuffers)
    (h1 : consolidate m = .ok out1) (h2 : consolidate m = .ok out2) : out1 = out2 := by
  rw [h1] at h2
  exact Except.ok.inj h2

/-- C3 witness: two runs on demoMesh give the same buffers. -/
theorem consolidate_deterministic_witness :
    consolidate demoMesh = .ok demoBuffers ∧
    consolidate demoMesh = .ok demoBuffers ∧ demoBuffers = demoBuffers :=
  ⟨by decide, by decide,
    consolidate_deterministic demoMesh demoBuffers demoBuffers (by decide) (by decide)⟩

theorem readReals_map (l : List Real) :
    readReals (l.map CacheToken.real) = some l := by
  induction l with
  | nil => rfl
  | cons a t ih => simp [readReals, ih]

theorem readNats_map (l : List Nat) :
    readNats (l.map CacheToken.word) = some l := by
  induction l with
  | nil => rfl
  | cons a t ih => simp [readNats, ih]

/-- C4: writing a consolidated vertex buffer and index buffer in the binary
cache format and reading the record back reconstructs the original
buffers and counts exactly, whenever the declared counts match the
buffers and the pack tag is a recognized layout. -/
theorem serialize_deserialize_roundtrip (packTag nVerts nIndices : Nat)
    (vb : List Real) (ib : List Nat) (htag : packTag ∈ packSizes)
    (hvb : vb.length = nVerts * packTag) (hib : ib.length = nIndices) :
    deserialize (serialize packTag nVerts nIndices vb ib) =
      .ok (nVerts, nIndices, packTag, vb, ib) := by
  have hlen1 : (vb.map CacheToken.real).length = nVerts * packTag := by
    simp [hvb]
  have htake := List.take_left (vb.map CacheToken.real) (ib.map CacheToken.word)
  rw [hlen1] at htake
  have hdrop := List.drop_left (vb.map CacheToken.real) (ib.map CacheToken.word)
  rw [hlen1] at hdrop
  have hlen : (vb.map CacheToken.real ++ ib.map CacheToken.word).length
      = nVerts * packTag + nIndices := by
    simp [hvb, hib]
  simp [serialize, deserialize, nccaBinaryVersion, htag, hlen, htake, hdrop,
    readReals_map, readNats_map]

/-- C4 witness: a two-record position-only buffer with three indices
round-trips through the cache format. -/
theorem serialize_deserialize_roundtrip_witness :
    3 ∈ packSizes ∧ ([1, 2, 3, 4, 5, 6] : List Real).length = 2 * 3 ∧
    ([0, 1, 1] : List Nat).length = 3 ∧
    deserialize (serialize 3 2 3 [1, 2, 3, 4, 5, 6] [0, 1, 1])
      = .ok (2, 3, 3, [1, 2, 3, 4, 5, 6], [0, 1, 1]) :=
  ⟨by decide, by decide, by decide,
    serialize_deserialize_roundtrip 3 2 3 _ _ (by decide) (by decide) (by decide)⟩

theorem foldl_min_map_scale (s : Real) (hs : 0 ≤ s) (f : Vec3 → Real)
    (g : Vec3 → Vec3) (hfg : ∀ q, f (g q) = s * f q) (l : List Vec3) (a : Real) :
    (l.map g).foldl (fun acc q => min acc (f q)) (s * a)
      = s * l.foldl (fun acc q => min acc (f q)) a := by
  induction l generalizing a with
  | nil => simp
  | cons q t ih =>
    simp only [List.map_cons, List.foldl_cons, hfg]
    rw [← mul_min_of_nonneg _ _ hs]
    exact ih (min a (f q))

theorem foldl_max_map_scale (s : Real) (hs : 0 ≤ s) (f : Vec3 → Real)
    (g : Vec3 → Vec3) (hfg : ∀ q, f (g q) = s * f q) (l : List Vec3) (a : Real) :
    (l.map g).foldl (fun acc q => max acc (f q)) (s * a)
      = s * l.foldl (fun acc q => max acc (f q)) a := by
  induction l generalizing a with
  | nil => simp
  | cons q t ih =>
    simp only [List.map_cons, List.foldl_cons, hfg]
    rw [← mul_max_of_nonneg _ _ hs]
    exact ih (max a (f q))

/-- C5 counterexample: the claim quantifies over every triple of scale
factors, but with the factor -1 on the x axis the scaled minimum and
maximum trade places, so scaling first and measuring differs from
measuring first and multiplying the extents. -/
theorem scale_calcDimensions_counterexample :
    calcDimensions (scale (-1) 1 1 [⟨0, 0, 0⟩, ⟨1, 0, 0⟩]) ≠
      (calcDimensions [⟨0, 0, 0⟩, ⟨1, 0, 0⟩]).map (scaleBBoxSpec (-1) 1 1) := by
  norm_num [calcDimensions, scale, scaleBBoxSpec, Except.map, min_def, max_def]

/-- C5 amended: for nonnegative scale factors, scaling the positions and
then computing the bounding box yields the same six scalars as computing
the bounding box first and multiplying each resulting coordinate by the
scale factor of its axis. -/
theorem scale_calcDimensions_comm (sx sy sz : Real)
    (hsx : 0 ≤ sx) (hsy : 0 ≤ sy) (hsz : 0 ≤ sz)
    (verts : List Vec3) (hne : verts ≠ []) :
    calcDimensions (scale sx sy sz verts)
      = (calcDimensions verts).map (scaleBBoxSpec sx sy sz) := by
  match verts with
  | [] => exact absurd rfl hne
  | p :: rest =>
    simp only [scale, List.map_cons, calcDimensions, Except.map, scaleBBoxSpec]
    apply congrArg Except.ok
    refine BBoxData.mk.injEq _ _ _ _ _ _ _ _ _ _ _ _ ▸ ?_
    refine ⟨?_, ?_, ?_, ?_, ?_, ?_⟩
    · exact foldl_min_map_scale sx hsx (fun q => q.x) _ (fun q => rfl) rest p.x
    · exact foldl_max_map_scale sx hsx (fun q => q.x) _ (fun q => rfl) rest p.x
    · exact foldl_min_map_scale sy hsy (fun q => q.y) _ (fun q => rfl) rest p.y
    · exact foldl_max_map_scale sy hsy (fun q => q.y) _ (fun q => rfl) rest p.y
    · exact foldl_min_map_scale sz hsz (fun q => q.z) _ (fun q => rfl) rest p.z
    · exact foldl_max_map_scale sz hsz (fun q => q.z) _ (fun q => rfl) rest p.z

/-- C5 witness: the amended commutation at the factors (2, 3, 4) on a
two-point stream. -/
theorem scale_calcDimensions_comm_witness :
    (0 : Real) ≤ 2 ∧ (0 : Real) ≤ 3 ∧ (0 : Real) ≤ 4 ∧
    ([⟨1, 2, 3⟩, ⟨-1, 0, 5⟩] : List Vec3) ≠ [] ∧
    calcDimensions (scale 2 3 4 [⟨1, 2, 3⟩, ⟨-1, 0, 5⟩])
      = (calcDimensions [⟨1, 2, 3⟩, ⟨-1, 0, 5⟩]).map (scaleBBoxSpec 2 3 4) :=
  ⟨by decide, by decide, by decide, by decide,
    scale_calcDimensions_comm 2 3 4 (by decide) (by decide) (by decide) _ (by decide)⟩

/-- C6: calcDimensions fails with the empty-mesh error exactly when the
position stream is empty; an empty stream never yields a zero-filled
box. -/
theorem calcDimensions_emptyMesh_iff (verts : List Vec3) :
    calcDimensions verts = .error .emptyMesh ↔ verts = [] := by
  cases verts <;> simp [calcDimensions]

/-- C7: a mesh whose face list holds a triangular face and a quadrilateral
face fails consolidation with the unsupported-topology error; the error
is returned before any vertex or index buffer is produced. -/
theorem consolidate_mixed_arity_error (m : AbstractMesh) (f g : Face)
    (hf : f ∈ m.m_face) (hg : g ∈ m.m_face)
    (hf3 : f.m_vert.length = 3) (hg4 : g.m_vert.length = 4) :
    consolidate m = .error .unsupportedTopology := by
  have htri : isTriangular m.m_face = false := by
    simp only [isTriangular, List.all_eq_false]
    exact ⟨g, hg, by simp [hg4]⟩
  have hquad : isQuad m.m_face = false := by
    simp only [isQuad, List.all_eq_false]
    exact ⟨f, hf, by simp [hf3]⟩
  simp [consolidate, uniformArity, htri, hquad]

/-- A triangular face over the first three positions, no attributes. -/
def demoTriFace : Face :=
  { m_vert := [0, 1, 2], m_tex := [], m_norm := []
  , m_textureCoord := false, m_normals := false }

/-- A quadrilateral face over the first four positions, no attributes. -/
def demoQuadFace : Face :=
  { m_vert := [0, 1, 2, 3], m_tex := [], m_norm := []
  , m_textureCoord := false, m_normals := false }

/-- A mesh mixing one triangle and one quad, the unsupported topology. -/
def demoMixedMesh : AbstractMesh :=
  { m_verts := [⟨0, 0, 0⟩, ⟨1, 0, 0⟩, ⟨2, 0, 0⟩, ⟨3, 0, 0⟩]
  , m_norm := [], m_tex := [], m_face := [demoTriFace, demoQuadFace] }

/-- C7 witness: the mixed mesh fails with the unsupported-topology error. -/
theorem consolidate_mixed_arity_error_witness :
    demoTriFace ∈ demoMixedMesh.m_face ∧ demoQuadFace ∈ demoMixedMesh.m_face ∧
    demoTriFace.m_vert.length = 3 ∧ demoQuadFace.m_vert.length = 4 ∧
    consolidate demoMixedMesh = .error .unsupportedTopology :=
  ⟨by decide, by decide, by decide, by decide,
    consolidate_mixed_arity_error demoMixedMesh demoTriFace demoQuadFace
      (by decide) (by decide) (by decide) (by decide)⟩

/-- C9: getVertexAtIndex performs no bounds check, the assertion in the
source being commented out: an index at or beyond the vertex count
reaches the unchecked subscript, yielding the out-of-bounds access that
the embedding marks with none. -/
theorem getVertexAtIndex_unchecked (verts : List Vec3) (i : Nat)
    (h : verts.length ≤ i) : getVertexAtIndex verts i = none :=
  List.get?_eq_none.mpr h

/-- C9 witness: index 5 on a one-vertex list is an unguarded out-of-bounds
access. -/
theorem getVertexAtIndex_unchecked_witness :
    ([⟨0, 0, 0⟩] : List Vec3).length ≤ 5 ∧
    getVertexAtIndex [⟨0, 0, 0⟩] 5 = none :=
  ⟨by decide, getVertexAtIndex_unchecked [⟨0, 0, 0⟩] 5 (by decide)⟩

/-- C10: the default constructor leaves the bounding-box pointer null, and
getBBox dereferences it unconditionally, so on a freshly constructed mesh
the call dereferences the null pointer. -/
theorem getBBox_fresh_null_deref :
    mkAbstractMesh.m_ext = none ∧ getBBox mkAbstractMesh = none :=
  ⟨rfl, rfl⟩

end NGL
